import Mathlib

/-!
Verification of the annotation-ledger core of the image-annotation tool
(`app.py`, `interface.py`): URL key extraction, judgment upsert,
completion queries, CSV serialization, and the upstream image-set filter.

Strings are modelled as `List Char` (Python `str`).  Remote-storage and
file-system effects are modelled by explicit outcome parameters; the
current date (`datetime.now().strftime("%d-%m-%Y")`) is passed in as an
explicit argument.
-/

/-! ## URL key extraction (`extract_key` in `app.py`)

`extract_key` runs `re.search(r"\.com/(.+?)(?:\?|$)", url)` and returns
group 1 when the pattern matches, the whole URL otherwise.  The model
reproduces Python `re` semantics for this pattern:
  * the engine scans for the leftmost start position where the whole
    pattern matches (a position where `.com/` occurs but the rest of the
    pattern fails is skipped, and later positions are tried);
  * `.` matches any character except a newline;
  * the lazy group `(.+?)` consumes as few characters as possible but at
    least one;
  * `$` (no MULTILINE flag) matches at the end of the string and also
    just before a trailing newline.
-/

/-- The literal characters of `.com/`. -/
def comSlash : List Char := ['.', 'c', 'o', 'm', '/']

/-- The lazy scan of `(.+?)(?:\?|$)` after at least one character has been
consumed into `acc` (stored reversed).  At each step the terminator
`(?:\?|$)` is tried first: it succeeds on `?`, at the end of input, or just
before a trailing newline; otherwise one more non-newline character is
consumed. -/
def lazyGroup : List Char → List Char → Option (List Char)
  | acc, [] => some acc.reverse
  | acc, c :: rest =>
    if c = '?' then some acc.reverse
    else if c = '\n' then (if rest.isEmpty then some acc.reverse else none)
    else lazyGroup (c :: acc) rest

/-- Matching `(.+?)(?:\?|$)` against `s`: the group needs at least one
character, and `.` does not match a newline. -/
def matchGroup : List Char → Option (List Char)
  | [] => none
  | c :: rest => if c = '\n' then none else lazyGroup [c] rest

/-- The scan of `re.search` for the pattern `\.com/(.+?)(?:\?|$)`: try each
start position from the left; at a position where `.com/` occurs, the rest
of the pattern must also match, otherwise the scan moves on. -/
def searchKey : List Char → Option (List Char)
  | [] => none
  | s@(_ :: rest) =>
    if comSlash.isPrefixOf s then
      match matchGroup (s.drop 5) with
      | some g => some g
      | none => searchKey rest
    else searchKey rest

/-- `extract_key` from `app.py`: group 1 of the regex match, or the whole
URL when the pattern does not match anywhere. -/
def extract_key (url : List Char) : List Char :=
  match searchKey url with
  | some g => g
  | none => url

/-! ## The ledger data model -/

/-- One row of the annotation ledger (one record of the CSV). -/
structure Row where
  orig : List Char
  gen : List Char
  plaus : List Char
  date : List Char
deriving DecidableEq

/-- Two rows agree on the deduplication key `(Original_Image,
Generated_Image)` (the `subset` of `drop_duplicates`). -/
def same_pair (a b : Row) : Bool :=
  decide (a.orig = b.orig ∧ a.gen = b.gen)

/-- `DataFrame.drop_duplicates(subset=["Original_Image", "Generated_Image"],
keep="last")`: a row is kept exactly when no later row has the same key
pair; the kept rows stay in their original order. -/
def drop_duplicates_keep_last : List Row → List Row
  | [] => []
  | r :: rest =>
    if rest.any (same_pair r) then drop_duplicates_keep_last rest
    else r :: drop_duplicates_keep_last rest

/-- The label literal `"Plausible"`. -/
def plausibleLabel : List Char := ("Plausible").data

/-- The label literal `"Implausible"`. -/
def implausibleLabel : List Char := ("Implausible").data

/-- The ledger contents produced by `save_selection_to_csv` in `app.py`:
keys are derived from the two URLs, the new row is appended to the rows
previously downloaded from S3, and duplicates of the
`(Original_Image, Generated_Image)` pair are dropped keeping the last
occurrence.  The resulting rows are what is then written locally and
uploaded.  `label` and `date` are the `Plausibility` and `Date` cell
values (`date` models `datetime.now().strftime("%d-%m-%Y")`). -/
def save_selection_to_csv (prior : List Row)
    (original_url generated_url label date : List Char) : List Row :=
  drop_duplicates_keep_last
    (prior ++ [⟨extract_key original_url, extract_key generated_url, label, date⟩])

/-- The Next-button completion check in `show_navigation` (`app.py`):
`len(df[df["Original_Image"] == original_key]) == len(generated_keys)`. -/
def isSetComplete (df : List Row) (original_key : List Char)
    (generated_keys : List (List Char)) : Bool :=
  decide ((df.filter (fun r => decide (r.orig = original_key))).length
    = generated_keys.length)

/-! ## DataFrames and the CSV wire format

`download_csv_from_s3` returns a pandas DataFrame; the model keeps its
column list (the header) together with its rows.  `pd.read_csv` /
`DataFrame.to_csv` are modelled at the level of the character stream:
fields containing the separator, the quote character or a newline are
written quoted with doubled inner quotes (`csv.QUOTE_MINIMAL`), and the
reader undoes this; blank lines are skipped on read
(`skip_blank_lines=True`), and reading fails (raises, in Python) on empty
input, on malformed quoting, and on input that does not form four-field
records. -/

/-- The ledger schema: the exact header of the CSV. -/
def expectedColumns : List (List Char) :=
  [("Original_Image").data, ("Generated_Image").data,
   ("Plausibility").data, ("Date").data]

/-- A pandas DataFrame holding ledger rows: its column list plus its rows. -/
structure DataFrame where
  columns : List (List Char)
  rows : List Row
deriving DecidableEq

/-- The empty ledger DataFrame
`pd.DataFrame(columns=["Original_Image", "Generated_Image", "Plausibility", "Date"])`. -/
def emptyLedger : DataFrame := ⟨expectedColumns, []⟩

/-- A field must be quoted when it contains the separator, the quote
character, or the line terminator (`csv.QUOTE_MINIMAL`). -/
def needsQuoting (f : List Char) : Bool :=
  f.any (fun c => c = ',' || c = '"' || c = '\n')

/-- Double every quote character of a field (the escaping used inside a
quoted field). -/
def escapeQuotes : List Char → List Char
  | [] => []
  | c :: rest =>
    if c = '"' then '"' :: '"' :: escapeQuotes rest
    else c :: escapeQuotes rest

/-- Encode one field for the CSV stream. -/
def encField (f : List Char) : List Char :=
  if needsQuoting f then '"' :: (escapeQuotes f ++ ['"']) else f

/-- Join encoded fields with commas. -/
def joinComma : List (List Char) → List Char
  | [] => []
  | [f] => f
  | f :: fs => f ++ ',' :: joinComma fs

/-- One encoded CSV line (no terminator). -/
def encLine (fs : List (List Char)) : List Char :=
  joinComma (fs.map encField)

/-- The four cell values of a ledger row, in column order. -/
def rowFields (r : Row) : List (List Char) :=
  [r.orig, r.gen, r.plaus, r.date]

/-- The data lines of `DataFrame.to_csv`: each record followed by `\n`. -/
def serializeRows : List Row → List Char
  | [] => []
  | r :: rs => encLine (rowFields r) ++ '\n' :: serializeRows rs

/-- `DataFrame.to_csv(..., index=False)`: header line, then one line per
row, each line terminated by `\n`. -/
def serialize_ledger (df : DataFrame) : List Char :=
  encLine df.columns ++ '\n' :: serializeRows df.rows

/-- Split a character stream at every unquoted occurrence of `delim`; a
quote character toggles the in-quotes state.  Used with `\n` to cut the
stream into lines and with `,` to cut a line into raw fields. -/
def splitQ (delim : Char) : List Char → Bool → List Char → List (List Char)
  | [], _, acc => [acc.reverse]
  | c :: rest, inq, acc =>
    if c = '"' then splitQ delim rest (!inq) (c :: acc)
    else if c = delim ∧ inq = false then acc.reverse :: splitQ delim rest false []
    else splitQ delim rest inq (c :: acc)

/-- Undo quote escaping: the input is the part of a quoted raw field after
the opening quote; it must end with the closing quote, inner quotes must be
doubled, and nothing may follow the closing quote. -/
def unescapeQ : List Char → Option (List Char)
  | [] => none
  | c :: rest =>
    if c = '"' then
      match rest with
      | [] => some []
      | c2 :: rest2 =>
        if c2 = '"' then (unescapeQ rest2).map (fun l => '"' :: l) else none
    else (unescapeQ rest).map (fun l => c :: l)

/-- Decode one raw field: a field starting with a quote is unescaped (and
must be well formed), any other field stands for itself. -/
def decodeField : List Char → Option (List Char)
  | [] => some []
  | c :: rest => if c = '"' then unescapeQ rest else some (c :: rest)

/-- Decode a list of raw fields, failing if any field is malformed. -/
def decodeFields : List (List Char) → Option (List (List Char))
  | [] => some []
  | f :: fs =>
    match decodeField f, decodeFields fs with
    | some d, some ds => some (d :: ds)
    | _, _ => none

/-- Decode one line into its field values. -/
def decodeLine (line : List Char) : Option (List (List Char)) :=
  decodeFields (splitQ ',' line false [])

/-- Decode a list of lines into records. -/
def decodeLines : List (List Char) → Option (List (List (List Char)))
  | [] => some []
  | l :: ls =>
    match decodeLine l, decodeLines ls with
    | some r, some rs => some (r :: rs)
    | _, _ => none

/-- The string-level part of `pd.read_csv`: cut the stream into lines at
unquoted newlines, skip blank lines, fail on empty input, and decode the
first line as the header and the remaining lines as records. -/
def parse_csv (s : List Char) :
    Option (List (List Char) × List (List (List Char))) :=
  match (splitQ '\n' s false []).filter (fun l => !l.isEmpty) with
  | [] => none
  | hline :: body =>
    match decodeLine hline, decodeLines body with
    | some hdr, some recs => some (hdr, recs)
    | _, _ => none

/-- Build ledger rows from four-field records, failing on any other
shape. -/
def toRows : List (List (List Char)) → Option (List Row)
  | [] => some []
  | [o, g, p, d] :: rest => (toRows rest).map (fun rs => ⟨o, g, p, d⟩ :: rs)
  | _ :: _ => none

/-- `pd.read_csv` specialized to the ledger: the stream must parse as a
CSV whose records have the four-column shape of the ledger schema;
otherwise reading fails (raises, in Python). -/
def read_ledger_csv (s : List Char) : Option DataFrame :=
  match parse_csv s with
  | none => none
  | some (hdr, recs) =>
    if hdr.length = 4 then
      match toRows recs with
      | some rows => some ⟨hdr, rows⟩
      | none => none
    else none

/-! ## Downloading the ledger (`download_csv_from_s3` in `app.py`) -/

/-- The possible outcomes of the S3 fetch in `download_csv_from_s3`:
the bucket is not configured, `get_object` raises `NoSuchKey`, it raises
a `ClientError`, some other exception occurs, or a body is retrieved. -/
inductive S3Outcome where
  | noBucket
  | noSuchKey
  | clientError
  | otherFailure
  | success (body : List Char)
deriving DecidableEq

/-- `download_csv_from_s3` from `app.py`: every failure branch (missing
bucket, `NoSuchKey`, `ClientError`, any other exception — including a
`pd.read_csv` failure on the retrieved body) returns the empty
four-column DataFrame; a body that reads as a ledger CSV is returned as
is. -/
def download_csv_from_s3 : S3Outcome → DataFrame
  | .noBucket => emptyLedger
  | .noSuchKey => emptyLedger
  | .clientError => emptyLedger
  | .otherFailure => emptyLedger
  | .success body =>
    match read_ledger_csv body with
    | some df => df
    | none => emptyLedger

/-! ## Progress counter (`get_total_fully_annotated` in `app.py`) -/

/-- `get_total_fully_annotated` from `app.py`: 0 when the DataFrame is
empty, otherwise the number of `Original_Image` groups whose count of
`Generated_Image` cells equals 5
(`df.groupby("Original_Image")["Generated_Image"].count()` filtered to
`== 5`). -/
def get_total_fully_annotated (df : DataFrame) : Nat :=
  if df.rows.isEmpty then 0
  else
    ((df.rows.map Row.orig).dedup.filter
      (fun k =>
        decide (((df.rows.filter (fun r => decide (r.orig = k))).map Row.gen).length
          = 5))).length

/-! ## The persist step of `save_selection_to_csv`

After the merged DataFrame is assembled, `save_selection_to_csv` runs
`df.to_csv(CSV_FILE, index=False)` (the local write, not wrapped in any
`try`) and then `upload_csv_to_s3(CSV_FILE, S3_CSV_KEY)`, which uploads
the local file and catches `ClientError` and any other exception, showing
`st.error` instead of raising. -/

/-- Success or failure of one write effect. -/
inductive WriteResult where
  | ok
  | fail
deriving DecidableEq

/-- What happened during the persist step. -/
structure PersistTrace where
  localWritten : Bool
  remoteAttempted : Bool
  remoteUploaded : Bool
  errorReported : Bool
  raisedToCaller : Bool
deriving DecidableEq

/-- The control flow of lines 193–195 of `app.py` together with
`upload_csv_to_s3` (lines 83–94): the local `to_csv` runs first and is not
wrapped in a `try`, so its failure raises out of `save_selection_to_csv`
and the upload is never attempted; the S3 upload reads the local file and
catches its own failures, reporting them via `st.error`. -/
def persist_step (localResult remoteResult : WriteResult) : PersistTrace :=
  match localResult with
  | .fail =>
    { localWritten := false, remoteAttempted := false, remoteUploaded := false
      errorReported := false, raisedToCaller := true }
  | .ok =>
    match remoteResult with
    | .fail =>
      { localWritten := true, remoteAttempted := true, remoteUploaded := false
        errorReported := true, raisedToCaller := false }
    | .ok =>
      { localWritten := true, remoteAttempted := true, remoteUploaded := true
        errorReported := false, raisedToCaller := false }

/-! ## The upstream image-set filter (`load_image_sets_from_json` in
`interface.py`) -/

/-- One entry of the image-set JSON: one original URL and the list of
generated URLs. -/
structure ImageSet where
  original : List Char
  generated : List (List Char)
deriving DecidableEq

/-- The retention test of `load_image_sets_from_json`: an image set is
kept when
`len(annotated_gen_keys.intersection(set(generated_keys))) < len(generated_keys)`,
where `annotated_gen_keys` is the set of `Generated_Image` values among
the ledger rows whose `Original_Image` equals the set's original key, and
`generated_keys` is the list of extracted generated keys.  The size of
the set intersection is computed as the number of distinct annotated keys
that occur in the generated-key list. -/
def retains_image_set (df : List Row) (s : ImageSet) : Bool :=
  let original_key := extract_key s.original
  let generated_keys := s.generated.map extract_key
  let matching := df.filter (fun r => decide (r.orig = original_key))
  let annotated_gen_keys := (matching.map Row.gen).dedup
  decide ((annotated_gen_keys.filter (fun k => decide (k ∈ generated_keys))).length
    < generated_keys.length)

/-- The filtering pass of `load_image_sets_from_json` over the decoded
JSON list: keep the sets passing the retention test; when none survive,
the function warns and returns the empty list (which is the filtered list
itself). -/
def load_image_sets_from_json (df : List Row) (image_sets : List ImageSet) :
    List ImageSet :=
  let filtered := image_sets.filter (retains_image_set df)
  if filtered.isEmpty then [] else filtered

/-! ## Definitions taken from the spec's words, for comparison -/

/-- The tail of the URL after the first occurrence of `.com/`, or `none`
when `.com/` does not occur.  (Used to state the spec's description of
`extract_key`.) -/
def tailAfterCom : List Char → Option (List Char)
  | [] => none
  | s@(_ :: rest) =>
    if comSlash.isPrefixOf s then some (s.drop 5) else tailAfterCom rest

/-- Whether `pat` occurs as a contiguous substring of `s`. -/
def hasSub (pat : List Char) : List Char → Bool
  | [] => pat.isEmpty
  | s@(_ :: rest) => pat.isPrefixOf s || hasSub pat rest

/-- The key function as claim C2 words it: everything after the first
occurrence of `.com/` up to but excluding the next `?` (or to the end),
and the URL unchanged when `.com/` does not occur. -/
def specKeyClaim (url : List Char) : List Char :=
  match tailAfterCom url with
  | some t => t.takeWhile (fun c => ¬ c = '?')
  | none => url

/-! ## Concrete test data used in claim statements -/

/-- A ledger with one original (`o`) holding exactly 5 judgments and a
second original (`p`) holding 3. -/
def exampleRows5and3 : List Row :=
  [⟨['o'], ['a'], plausibleLabel, []⟩, ⟨['o'], ['b'], plausibleLabel, []⟩,
   ⟨['o'], ['c'], plausibleLabel, []⟩, ⟨['o'], ['d'], plausibleLabel, []⟩,
   ⟨['o'], ['e'], plausibleLabel, []⟩, ⟨['p'], ['a'], plausibleLabel, []⟩,
   ⟨['p'], ['b'], plausibleLabel, []⟩, ⟨['p'], ['c'], plausibleLabel, []⟩]

/-- An image set whose five generated URLs all extract to the same key
`a`. -/
def exampleSetDupKeys : ImageSet :=
  ⟨("o.com/x").data,
   [("g.com/a").data, ("g.com/a").data, ("g.com/a").data,
    ("g.com/a").data, ("g.com/a").data]⟩

/-- A one-row ledger in which the pair (`x`, `a`) is annotated. -/
def exampleDfXA : List Row := [⟨['x'], ['a'], plausibleLabel, []⟩]

/-- An image set whose five generated URLs extract to the five distinct
keys `a` … `e`. -/
def exampleSetDistinct : ImageSet :=
  ⟨("o.com/x").data,
   [("g.com/a").data, ("g.com/b").data, ("g.com/c").data,
    ("g.com/d").data, ("g.com/e").data]⟩

/-! # Lemmas about the upsert -/

lemma any_same_pair_iff (r : Row) (l : List Row) :
    l.any (same_pair r) = true ↔ ∃ x ∈ l, r.orig = x.orig ∧ r.gen = x.gen := by
  simp [List.any_eq_true, same_pair]

lemma dd_filter (p : Row → Bool) (hp : ∀ a b, same_pair a b = true → p a = p b) :
    ∀ l : List Row,
      (drop_duplicates_keep_last l).filter p = drop_duplicates_keep_last (l.filter p) := by
  intro l
  induction l with
  | nil => rfl
  | cons r rest ih =>
    by_cases hany : rest.any (same_pair r) = true
    · simp only [drop_duplicates_keep_last, if_pos hany]
      rw [ih]
      by_cases hpr : p r = true
      · rw [List.filter_cons_of_pos hpr]
        simp only [drop_duplicates_keep_last]
        rw [if_pos ?_]
        rcases (any_same_pair_iff r rest).mp hany with ⟨x, hx, hox, hgx⟩
        have hsp : same_pair r x = true := by simp [same_pair, hox, hgx]
        have hpx : p x = true := by rw [← hp r x hsp]; exact hpr
        exact (any_same_pair_iff r _).mpr ⟨x, List.mem_filter.mpr ⟨hx, hpx⟩, hox, hgx⟩
      · rw [List.filter_cons_of_neg hpr]
    · simp only [drop_duplicates_keep_last, if_neg hany]
      by_cases hpr : p r = true
      · rw [List.filter_cons_of_pos hpr, List.filter_cons_of_pos hpr, ih]
        simp only [drop_duplicates_keep_last]
        rw [if_neg ?_]
        intro hcon
        rcases (any_same_pair_iff r _).mp hcon with ⟨x, hx, hox, hgx⟩
        exact hany ((any_same_pair_iff r rest).mpr
          ⟨x, (List.mem_filter.mp hx).1, hox, hgx⟩)
      · rw [List.filter_cons_of_neg hpr, List.filter_cons_of_neg hpr, ih]

lemma dd_append_last (r : Row) :
    ∀ l : List Row, (∀ x ∈ l, same_pair x r = true) →
      drop_duplicates_keep_last (l ++ [r]) = [r] := by
  intro l
  induction l with
  | nil => intro _; rfl
  | cons x t ih =>
    intro h
    have hx := of_decide_eq_true (h x (List.mem_cons_self x t))
    have hany : (t ++ [r]).any (same_pair x) = true :=
      (any_same_pair_iff x (t ++ [r])).mpr ⟨r, by simp, hx.1, hx.2⟩
    rw [List.cons_append]
    simp only [drop_duplicates_keep_last]
    split
    next => exact ih (fun y hy => h y (List.mem_cons_of_mem x hy))
    next hcon => exact absurd hany hcon

lemma dd_pairwise : ∀ l : List Row,
    l.Pairwise (fun a b => same_pair a b = false) →
    drop_duplicates_keep_last l = l := by
  intro l
  induction l with
  | nil => intro _; rfl
  | cons r t ih =>
    intro h
    have hany : ¬ t.any (same_pair r) = true := by
      intro hc
      rcases (any_same_pair_iff r t).mp hc with ⟨x, hx, hox, hgx⟩
      have h1 := (List.pairwise_cons.mp h).1 x hx
      have h2 : same_pair r x = true := by simp [same_pair, hox, hgx]
      rw [h1] at h2
      exact Bool.false_ne_true h2
    simp only [drop_duplicates_keep_last, if_neg hany]
    rw [ih (List.pairwise_cons.mp h).2]

lemma filter_pair_save (prior : List Row) (ou gu lab d : List Char) :
    (save_selection_to_csv prior ou gu lab d).filter
      (fun r => decide (r.orig = extract_key ou ∧ r.gen = extract_key gu))
      = [⟨extract_key ou, extract_key gu, lab, d⟩] := by
  set p : Row → Bool :=
    fun r => decide (r.orig = extract_key ou ∧ r.gen = extract_key gu) with hpdef
  have hp : ∀ a b, same_pair a b = true → p a = p b := by
    intro a b hab
    have h := of_decide_eq_true hab
    simp only [hpdef]
    rw [h.1, h.2]
  unfold save_selection_to_csv
  rw [dd_filter p hp, List.filter_append]
  have h1 : ([⟨extract_key ou, extract_key gu, lab, d⟩] : List Row).filter p
      = [⟨extract_key ou, extract_key gu, lab, d⟩] := by
    simp [hpdef]
  rw [h1]
  apply dd_append_last
  intro x hx
  have hpx := of_decide_eq_true (List.mem_filter.mp hx).2
  simp [same_pair, hpx.1, hpx.2]

/-- Claim C1: for every pair of URLs and every prior ledger state, after
`save_selection_to_csv` the ledger contains at most one row whose
`(Original_Image, Generated_Image)` pair equals the pair of keys derived
from those URLs; and recording `(orig, gen, Plausible)` followed by
`(orig, gen, Implausible)` leaves exactly one row for that pair, carrying
label `Implausible` (last write wins). -/
theorem claim_C1 : ∀ (prior : List Row) (ou gu lab d1 d2 : List Char),
    ((save_selection_to_csv prior ou gu lab d1).filter
      (fun r => decide (r.orig = extract_key ou ∧ r.gen = extract_key gu))).length ≤ 1
    ∧ (save_selection_to_csv (save_selection_to_csv prior ou gu plausibleLabel d1)
        ou gu implausibleLabel d2).filter
        (fun r => decide (r.orig = extract_key ou ∧ r.gen = extract_key gu))
      = [⟨extract_key ou, extract_key gu, implausibleLabel, d2⟩] := by
  intro prior ou gu lab d1 d2
  constructor
  · rw [filter_pair_save]
    simp
  · exact filter_pair_save _ ou gu implausibleLabel d2

/-! # Lemmas about key extraction -/

lemma lazyGroup_no_nl (rem : List Char) (h : ∀ c ∈ rem, ¬ c = '\n') :
    ∀ acc, lazyGroup acc rem
      = some (acc.reverse ++ rem.takeWhile (fun c => ¬ c = '?')) := by
  induction rem with
  | nil => intro acc; simp [lazyGroup]
  | cons c rest ih =>
    intro acc
    have hc : ¬ c = '\n' := h c (List.mem_cons_self c rest)
    by_cases hq : c = '?'
    · subst hq
      simp [lazyGroup, List.takeWhile_cons]
    · simp only [lazyGroup, if_neg hq, if_neg hc]
      rw [ih (fun x hx => h x (List.mem_cons_of_mem c hx)) (c :: acc)]
      rw [List.takeWhile_cons]
      simp [hq]

lemma matchGroup_some (c : Char) (rest : List Char) (hc : ¬ c = '\n')
    (h : ∀ x ∈ rest, ¬ x = '\n') :
    matchGroup (c :: rest) = some (c :: rest.takeWhile (fun x => ¬ x = '?')) := by
  simp only [matchGroup, if_neg hc]
  rw [lazyGroup_no_nl rest h [c]]
  rfl

lemma isPrefixOf_length {l s : List Char} (h : l.isPrefixOf s = true) :
    l.length ≤ s.length :=
  (List.isPrefixOf_iff_prefix.mp h).length_le

lemma searchKey_short : ∀ url : List Char, url.length < 5 → searchKey url = none := by
  intro url
  induction url with
  | nil => intro _; rfl
  | cons c rest ih =>
    intro h
    by_cases hp : comSlash.isPrefixOf (c :: rest) = true
    · exfalso
      have := isPrefixOf_length hp
      simp [comSlash] at this
      simp at h
      omega
    · simp only [searchKey, if_neg hp]
      apply ih
      simp at h
      omega

lemma matchGroup_none_iff (t : List Char) (h : ∀ x ∈ t, ¬ x = '\n') :
    matchGroup t = none ↔ t = [] := by
  constructor
  · intro hm
    cases t with
    | nil => rfl
    | cons c rest =>
      rw [matchGroup_some c rest (h c (List.mem_cons_self c rest))
        (fun x hx => h x (List.mem_cons_of_mem c hx))] at hm
      exact absurd hm (by simp)
  · intro ht
    subst ht
    rfl

lemma searchKey_cons (c : Char) (rest : List Char) :
    searchKey (c :: rest)
      = if comSlash.isPrefixOf (c :: rest) = true then
          match matchGroup ((c :: rest).drop 5) with
          | some g => some g
          | none => searchKey rest
        else searchKey rest := rfl

lemma tailAfterCom_cons (c : Char) (rest : List Char) :
    tailAfterCom (c :: rest)
      = if comSlash.isPrefixOf (c :: rest) = true then some ((c :: rest).drop 5)
        else tailAfterCom rest := rfl

lemma searchKey_bind (url : List Char) (h : ∀ c ∈ url, ¬ c = '\n') :
    searchKey url = (tailAfterCom url).bind matchGroup := by
  induction url with
  | nil => rfl
  | cons c rest ih =>
    by_cases hp : comSlash.isPrefixOf (c :: rest) = true
    · rw [searchKey_cons, tailAfterCom_cons, if_pos hp, if_pos hp, Option.some_bind]
      cases hm : matchGroup ((c :: rest).drop 5) with
      | some g => rfl
      | none =>
        show searchKey rest = none
        have hdropnl : ∀ x ∈ (c :: rest).drop 5, ¬ x = '\n' :=
          fun x hx => h x (List.mem_of_mem_drop hx)
        have hdrop : (c :: rest).drop 5 = [] :=
          (matchGroup_none_iff _ hdropnl).mp hm
        have hlen5 : (c :: rest).length ≤ 5 := by
          rw [← List.drop_eq_nil_iff]
          exact hdrop
        apply searchKey_short
        simp at hlen5
        omega
    · rw [searchKey_cons, tailAfterCom_cons, if_neg hp, if_neg hp]
      exact ih (fun x hx => h x (List.mem_cons_of_mem c hx))

lemma tailAfterCom_sub : ∀ url t, tailAfterCom url = some t → ∀ x ∈ t, x ∈ url := by
  intro url
  induction url with
  | nil =>
    intro t ht
    simp [tailAfterCom] at ht
  | cons c rest ih =>
    intro t ht x hx
    by_cases hp : comSlash.isPrefixOf (c :: rest) = true
    · simp only [tailAfterCom, if_pos hp, Option.some.injEq] at ht
      subst ht
      exact List.mem_of_mem_drop hx
    · simp only [tailAfterCom, if_neg hp] at ht
      exact List.mem_cons_of_mem c (ih t ht x hx)

/-- Claim C2 (amended): for every URL without newline characters, when
`.com/` occurs and at least one character follows its first occurrence,
`extract_key` returns that first character followed by the subsequent
characters up to but excluding the next `?` (or to the end of the string):
the lazy group consumes at least one character before the terminator is
tried, so a `?` standing immediately after `.com/` is included in the key
rather than ending it.  When `.com/` does not occur, or occurs only as
the terminal suffix with nothing after it, the URL is returned
unchanged. -/
theorem claim_C2 : ∀ url : List Char, (∀ c ∈ url, ¬ c = '\n') →
    ((tailAfterCom url = none → extract_key url = url)
     ∧ (tailAfterCom url = some [] → extract_key url = url)
     ∧ ∀ c rest, tailAfterCom url = some (c :: rest) →
         extract_key url = c :: rest.takeWhile (fun x => ¬ x = '?')) := by
  intro url h
  have hb := searchKey_bind url h
  refine ⟨?_, ?_, ?_⟩
  · intro ht
    unfold extract_key
    rw [hb, ht]
    rfl
  · intro ht
    unfold extract_key
    rw [hb, ht]
    rfl
  · intro c rest ht
    have hsub := tailAfterCom_sub url (c :: rest) ht
    unfold extract_key
    rw [hb, ht, Option.some_bind,
      matchGroup_some c rest (h c (hsub c (List.mem_cons_self c rest)))
        (fun x hx => h x (hsub x (List.mem_cons_of_mem c hx)))]

/-- Claim C2 counterexample: the URL `a.com/?x` contains `.com/`, and the
claim as stated demands the key `""` (everything after `.com/` up to but
excluding the next `?`, which stands immediately after it), but
`extract_key` returns `?x`. -/
theorem claim_C2_counterexample :
    hasSub comSlash (("a.com/?x").data) = true
    ∧ specKeyClaim (("a.com/?x").data) = []
    ∧ extract_key (("a.com/?x").data) = ['?', 'x']
    ∧ ¬ extract_key (("a.com/?x").data) = specKeyClaim (("a.com/?x").data) := by
  decide

/-- Witness for the amended claim C2 at the URL `x.com/a?b`. -/
theorem claim_C2_witness : extract_key (("x.com/a?b").data) = ['a'] := by
  have h := (claim_C2 (("x.com/a?b").data) (by decide)).2.2 'a' (("?b").data)
    (by decide)
  rw [h]
  decide

lemma isPrefixOf_of_append {pat x y : List Char} (h : pat.isPrefixOf (x ++ y) = true)
    (hlen : pat.length ≤ x.length) : pat.isPrefixOf x = true := by
  rw [List.isPrefixOf_iff_prefix] at h ⊢
  rw [List.prefix_iff_eq_take] at h ⊢
  rw [h]
  rw [List.take_append_eq_append_take, Nat.sub_eq_zero_of_le hlen]
  simp

lemma searchKey_comSlash_end : ∀ p : List Char,
    hasSub comSlash (p ++ ['.', 'c', 'o', 'm']) = false →
    searchKey (p ++ comSlash) = none := by
  intro p
  induction p with
  | nil => intro _; decide
  | cons c p' ih =>
    intro h
    rw [List.cons_append] at h
    have h' := Bool.or_eq_false_iff.mp
      (show (comSlash.isPrefixOf (c :: (p' ++ ['.', 'c', 'o', 'm']))
          || hasSub comSlash (p' ++ ['.', 'c', 'o', 'm'])) = false from h)
    rw [List.cons_append]
    by_cases hp : comSlash.isPrefixOf (c :: (p' ++ comSlash)) = true
    · exfalso
      have heq : c :: (p' ++ comSlash)
          = (c :: (p' ++ ['.', 'c', 'o', 'm'])) ++ ['/'] := by
        simp [comSlash]
      rw [heq] at hp
      have htr := isPrefixOf_of_append hp (by simp [comSlash])
      rw [h'.1] at htr
      exact Bool.false_ne_true htr
    · simp only [searchKey, if_neg hp]
      exact ih h'.2

lemma hasSub_suffix : ∀ p : List Char, hasSub comSlash (p ++ comSlash) = true := by
  intro p
  induction p with
  | nil => decide
  | cons c p' ih =>
    rw [List.cons_append]
    show (comSlash.isPrefixOf (c :: (p' ++ comSlash))
      || hasSub comSlash (p' ++ comSlash)) = true
    rw [ih, Bool.or_true]

/-- Claim C9: when the first (hence only) occurrence of `.com/` sits at
the very end of the URL, the regex cannot match (the lazy group needs at
least one character after `.com/`), so `extract_key` falls back to
returning the whole URL unchanged even though `.com/` occurs in it. -/
theorem claim_C9 : ∀ p : List Char,
    hasSub comSlash (p ++ ['.', 'c', 'o', 'm']) = false →
    extract_key (p ++ comSlash) = p ++ comSlash
    ∧ hasSub comSlash (p ++ comSlash) = true := by
  intro p h
  constructor
  · unfold extract_key
    rw [searchKey_comSlash_end p h]
  · exact hasSub_suffix p

/-- Witness for claim C9 at the URL `http://a.com/`. -/
theorem claim_C9_witness :
    extract_key ((("http://a").data) ++ comSlash) = (("http://a").data) ++ comSlash
    ∧ hasSub comSlash ((("http://a").data) ++ comSlash) = true :=
  claim_C9 (("http://a").data) (by decide)

/-! # Completion and progress queries -/

/-- Claim C3: the Next-button check returns true exactly when the number
of ledger rows whose `Original_Image` equals the original key equals the
length of the expected generated-key list — a pure row count.  It is not
a set-membership test: there are ledgers and key lists for which the
check passes although an expected generated key has no matching row. -/
theorem claim_C3 :
    (∀ (df : List Row) (k : List Char) (gks : List (List Char)),
      isSetComplete df k gks = true ↔
        df.countP (fun r => decide (r.orig = k)) = gks.length)
    ∧ ∃ (df : List Row) (k g : List Char) (gks : List (List Char)),
        isSetComplete df k gks = true ∧ g ∈ gks
        ∧ ¬ g ∈ (df.filter (fun r => decide (r.orig = k))).map Row.gen := by
  constructor
  · intro df k gks
    simp [isSetComplete, List.countP_eq_length_filter]
  · exact ⟨[⟨['o'], ['a'], [], []⟩], ['o'], ['b'], [['b']],
      by decide, by decide, by decide⟩

lemma dedup_filter {α : Type} [DecidableEq α] (p : α → Bool) :
    ∀ l : List α, (l.filter p).dedup = l.dedup.filter p := by
  intro l
  induction l with
  | nil => rfl
  | cons a t ih =>
    by_cases hp : p a = true
    · rw [List.filter_cons_of_pos hp]
      by_cases hm : a ∈ t
      · rw [List.dedup_cons_of_mem hm,
          List.dedup_cons_of_mem (List.mem_filter.mpr ⟨hm, hp⟩), ih]
      · have hmf : ¬ a ∈ t.filter p := fun hc => hm (List.mem_filter.mp hc).1
        rw [List.dedup_cons_of_not_mem hm, List.dedup_cons_of_not_mem hmf,
          List.filter_cons_of_pos hp, ih]
    · rw [List.filter_cons_of_neg hp]
      by_cases hm : a ∈ t
      · rw [List.dedup_cons_of_mem hm, ih]
      · rw [List.dedup_cons_of_not_mem hm, List.filter_cons_of_neg hp, ih]

/-- Claim C4: `get_total_fully_annotated` returns the number of distinct
`Original_Image` groups whose row count equals exactly 5; it returns 0 on
an empty ledger; and on a ledger with one original holding exactly 5
judgments and another holding 3 it returns 1. -/
theorem claim_C4 :
    (∀ df : DataFrame,
      get_total_fully_annotated df
        = ((df.rows.map Row.orig).toFinset.filter
            (fun k => df.rows.countP (fun r => decide (r.orig = k)) = 5)).card)
    ∧ (∀ cols, get_total_fully_annotated ⟨cols, []⟩ = 0)
    ∧ get_total_fully_annotated ⟨expectedColumns, exampleRows5and3⟩ = 1 := by
  refine ⟨?_, fun cols => rfl, by decide⟩
  intro df
  unfold get_total_fully_annotated
  by_cases h : df.rows.isEmpty
  · rw [if_pos h]
    rw [List.isEmpty_iff] at h
    rw [h]
    rfl
  · rw [if_neg h]
    rw [← dedup_filter, ← List.card_toFinset, List.toFinset_filter]
    congr 1
    apply Finset.filter_congr
    intro x _
    simp [List.countP_eq_length_filter]

/-! # Download error handling -/

/-- Claim C5: `download_csv_from_s3` never propagates a failure: on a
missing key, on a client error, on any other exception, and on a retrieved
body that does not read as a ledger CSV it returns the empty DataFrame
with exactly the four schema columns and zero rows, and
`get_total_fully_annotated` of that result is 0. -/
theorem claim_C5 :
    download_csv_from_s3 S3Outcome.noBucket = emptyLedger
    ∧ download_csv_from_s3 S3Outcome.noSuchKey = emptyLedger
    ∧ download_csv_from_s3 S3Outcome.clientError = emptyLedger
    ∧ download_csv_from_s3 S3Outcome.otherFailure = emptyLedger
    ∧ (∀ body, read_ledger_csv body = none →
        download_csv_from_s3 (S3Outcome.success body) = emptyLedger)
    ∧ emptyLedger.columns = expectedColumns
    ∧ emptyLedger.rows = []
    ∧ get_total_fully_annotated emptyLedger = 0 := by
  refine ⟨rfl, rfl, rfl, rfl, ?_, rfl, rfl, rfl⟩
  intro body h
  show (match read_ledger_csv body with
    | some df => df
    | none => emptyLedger) = emptyLedger
  rw [h]

/-- Witness for claim C5: the empty body raises in `pd.read_csv`
(`EmptyDataError`), and the download falls back to the empty ledger. -/
theorem claim_C5_witness :
    download_csv_from_s3 (S3Outcome.success []) = emptyLedger :=
  claim_C5.2.2.2.2.1 [] (by decide)

/-! # The persist step -/

/-- Claim C6 counterexample: when the local `to_csv` write fails, the
remote upload is never attempted and the failure propagates to the
caller — contradicting the claim that a local-write failure does not
prevent the remote write and that neither failure is fatal. -/
theorem claim_C6_counterexample :
    (persist_step WriteResult.fail WriteResult.ok).remoteAttempted = false
    ∧ (persist_step WriteResult.fail WriteResult.ok).remoteUploaded = false
    ∧ (persist_step WriteResult.fail WriteResult.ok).raisedToCaller = true := by
  decide

/-- Claim C6 (amended): the persist step writes the local copy first; a
failure of the remote upload does not undo or prevent the local write, is
reported, and is not fatal to the caller.  In the other direction the
claimed independence does not hold: a failure of the local write prevents
the remote upload entirely (the upload reads the local file) and raises
out of `save_selection_to_csv`. -/
theorem claim_C6 : ∀ r : WriteResult,
    (persist_step WriteResult.ok r).localWritten = true
    ∧ (persist_step WriteResult.ok r).raisedToCaller = false
    ∧ (persist_step WriteResult.ok WriteResult.fail).errorReported = true
    ∧ (persist_step WriteResult.fail r).remoteAttempted = false
    ∧ (persist_step WriteResult.fail r).raisedToCaller = true := by
  intro r
  cases r <;> exact ⟨rfl, rfl, rfl, rfl, rfl⟩

/-! # Set-completion progress (claim C8) -/

lemma filter_orig_save (L : List Row) (ou gu lab d : List Char) :
    (save_selection_to_csv L ou gu lab d).filter
      (fun r => decide (r.orig = extract_key ou))
      = drop_duplicates_keep_last
          (L.filter (fun r => decide (r.orig = extract_key ou))
            ++ [⟨extract_key ou, extract_key gu, lab, d⟩]) := by
  set p : Row → Bool := fun r => decide (r.orig = extract_key ou) with hpdef
  have hp : ∀ a b, same_pair a b = true → p a = p b := by
    intro a b hab
    have h := of_decide_eq_true hab
    simp only [hpdef]
    rw [h.1]
  unfold save_selection_to_csv
  rw [dd_filter p hp, List.filter_append]
  congr 1
  simp [hpdef]

lemma same_pair_mk_false {o1 g1v p1 dt1 o2 g2v p2 dt2 : List Char}
    (h : ¬ g1v = g2v) :
    same_pair ⟨o1, g1v, p1, dt1⟩ ⟨o2, g2v, p2, dt2⟩ = false := by
  simp [same_pair, h]

/-- Claim C8: for an image set whose five generated URLs have pairwise
distinct extracted keys, starting from a ledger holding no row for the
set's original key, after recording judgments for four distinct generated
images the Next-button check over the five generated keys is false, and
after recording the fifth it is true. -/
theorem claim_C8 (prior : List Row)
    (ou g0 g1 g2 g3 g4 l0 l1 l2 l3 l4 d0 d1 d2 d3 d4 : List Char)
    (h01 : ¬ extract_key g0 = extract_key g1)
    (h02 : ¬ extract_key g0 = extract_key g2)
    (h03 : ¬ extract_key g0 = extract_key g3)
    (h04 : ¬ extract_key g0 = extract_key g4)
    (h12 : ¬ extract_key g1 = extract_key g2)
    (h13 : ¬ extract_key g1 = extract_key g3)
    (h14 : ¬ extract_key g1 = extract_key g4)
    (h23 : ¬ extract_key g2 = extract_key g3)
    (h24 : ¬ extract_key g2 = extract_key g4)
    (h34 : ¬ extract_key g3 = extract_key g4)
    (hfresh : prior.filter (fun r => decide (r.orig = extract_key ou)) = []) :
    isSetComplete
      (save_selection_to_csv (save_selection_to_csv (save_selection_to_csv
        (save_selection_to_csv prior ou g0 l0 d0) ou g1 l1 d1) ou g2 l2 d2)
        ou g3 l3 d3)
      (extract_key ou)
      [extract_key g0, extract_key g1, extract_key g2, extract_key g3,
       extract_key g4] = false
    ∧ isSetComplete
      (save_selection_to_csv (save_selection_to_csv (save_selection_to_csv
        (save_selection_to_csv (save_selection_to_csv prior ou g0 l0 d0)
        ou g1 l1 d1) ou g2 l2 d2) ou g3 l3 d3) ou g4 l4 d4)
      (extract_key ou)
      [extract_key g0, extract_key g1, extract_key g2, extract_key g3,
       extract_key g4] = true := by
  have e1 : (save_selection_to_csv prior ou g0 l0 d0).filter
      (fun r => decide (r.orig = extract_key ou))
      = [⟨extract_key ou, extract_key g0, l0, d0⟩] := by
    rw [filter_orig_save, hfresh]
    rfl
  have pw2 : List.Pairwise (fun a b => same_pair a b = false)
      ([⟨extract_key ou, extract_key g0, l0, d0⟩,
        ⟨extract_key ou, extract_key g1, l1, d1⟩] : List Row) := by
    refine List.Pairwise.cons ?_ (List.pairwise_singleton _ _)
    intro b hb
    rw [List.mem_singleton] at hb
    subst hb
    exact same_pair_mk_false h01
  have e2 : (save_selection_to_csv (save_selection_to_csv prior ou g0 l0 d0)
      ou g1 l1 d1).filter (fun r => decide (r.orig = extract_key ou))
      = [⟨extract_key ou, extract_key g0, l0, d0⟩,
         ⟨extract_key ou, extract_key g1, l1, d1⟩] := by
    rw [filter_orig_save, e1]
    exact dd_pairwise _ pw2
  have pw3 : List.Pairwise (fun a b => same_pair a b = false)
      ([⟨extract_key ou, extract_key g0, l0, d0⟩,
        ⟨extract_key ou, extract_key g1, l1, d1⟩,
        ⟨extract_key ou, extract_key g2, l2, d2⟩] : List Row) := by
    refine List.Pairwise.cons ?_ (List.Pairwise.cons ?_ (List.pairwise_singleton _ _))
    · intro b hb
      simp only [List.mem_cons, List.not_mem_nil, or_false] at hb
      rcases hb with rfl | rfl
      · exact same_pair_mk_false h01
      · exact same_pair_mk_false h02
    · intro b hb
      rw [List.mem_singleton] at hb
      subst hb
      exact same_pair_mk_false h12
  have e3 : (save_selection_to_csv (save_selection_to_csv
      (save_selection_to_csv prior ou g0 l0 d0) ou g1 l1 d1) ou g2 l2 d2).filter
      (fun r => decide (r.orig = extract_key ou))
      = [⟨extract_key ou, extract_key g0, l0, d0⟩,
         ⟨extract_key ou, extract_key g1, l1, d1⟩,
         ⟨extract_key ou, extract_key g2, l2, d2⟩] := by
    rw [filter_orig_save, e2]
    exact dd_pairwise _ pw3
  have pw4 : List.Pairwise (fun a b => same_pair a b = false)
      ([⟨extract_key ou, extract_key g0, l0, d0⟩,
        ⟨extract_key ou, extract_key g1, l1, d1⟩,
        ⟨extract_key ou, extract_key g2, l2, d2⟩,
        ⟨extract_key ou, extract_key g3, l3, d3⟩] : List Row) := by
    refine List.Pairwise.cons ?_ (List.Pairwise.cons ?_
      (List.Pairwise.cons ?_ (List.pairwise_singleton _ _)))
    · intro b hb
      simp only [List.mem_cons, List.not_mem_nil, or_false] at hb
      rcases hb with rfl | rfl | rfl
      · exact same_pair_mk_false h01
      · exact same_pair_mk_false h02
      · exact same_pair_mk_false h03
    · intro b hb
      simp only [List.mem_cons, List.not_mem_nil, or_false] at hb
      rcases hb with rfl | rfl
      · exact same_pair_mk_false h12
      · exact same_pair_mk_false h13
    · intro b hb
      rw [List.mem_singleton] at hb
      subst hb
      exact same_pair_mk_false h23
  have e4 : (save_selection_to_csv (save_selection_to_csv (save_selection_to_csv
      (save_selection_to_csv prior ou g0 l0 d0) ou g1 l1 d1) ou g2 l2 d2)
      ou g3 l3 d3).filter (fun r => decide (r.orig = extract_key ou))
      = [⟨extract_key ou, extract_key g0, l0, d0⟩,
         ⟨extract_key ou, extract_key g1, l1, d1⟩,
         ⟨extract_key ou, extract_key g2, l2, d2⟩,
         ⟨extract_key ou, extract_key g3, l3, d3⟩] := by
    rw [filter_orig_save, e3]
    exact dd_pairwise _ pw4
  have pw5 : List.Pairwise (fun a b => same_pair a b = false)
      ([⟨extract_key ou, extract_key g0, l0, d0⟩,
        ⟨extract_key ou, extract_key g1, l1, d1⟩,
        ⟨extract_key ou, extract_key g2, l2, d2⟩,
        ⟨extract_key ou, extract_key g3, l3, d3⟩,
        ⟨extract_key ou, extract_key g4, l4, d4⟩] : List Row) := by
    refine List.Pairwise.cons ?_ (List.Pairwise.cons ?_
      (List.Pairwise.cons ?_ (List.Pairwise.cons ?_
        (List.pairwise_singleton _ _))))
    · intro b hb
      simp only [List.mem_cons, List.not_mem_nil, or_false] at hb
      rcases hb with rfl | rfl | rfl | rfl
      · exact same_pair_mk_false h01
      · exact same_pair_mk_false h02
      · exact same_pair_mk_false h03
      · exact same_pair_mk_false h04
    · intro b hb
      simp only [List.mem_cons, List.not_mem_nil, or_false] at hb
      rcases hb with rfl | rfl | rfl
      · exact same_pair_mk_false h12
      · exact same_pair_mk_false h13
      · exact same_pair_mk_false h14
    · intro b hb
      simp only [List.mem_cons, List.not_mem_nil, or_false] at hb
      rcases hb with rfl | rfl
      · exact same_pair_mk_false h23
      · exact same_pair_mk_false h24
    · intro b hb
      rw [List.mem_singleton] at hb
      subst hb
      exact same_pair_mk_false h34
  have e5 : (save_selection_to_csv (save_selection_to_csv (save_selection_to_csv
      (save_selection_to_csv (save_selection_to_csv prior ou g0 l0 d0)
      ou g1 l1 d1) ou g2 l2 d2) ou g3 l3 d3) ou g4 l4 d4).filter
      (fun r => decide (r.orig = extract_key ou))
      = [⟨extract_key ou, extract_key g0, l0, d0⟩,
         ⟨extract_key ou, extract_key g1, l1, d1⟩,
         ⟨extract_key ou, extract_key g2, l2, d2⟩,
         ⟨extract_key ou, extract_key g3, l3, d3⟩,
         ⟨extract_key ou, extract_key g4, l4, d4⟩] := by
    rw [filter_orig_save, e4]
    exact dd_pairwise _ pw5
  constructor
  · unfold isSetComplete
    rw [e4]
    rfl
  · unfold isSetComplete
    rw [e5]
    rfl

/-- Witness for claim C8 at a concrete image set with five distinct
generated keys, an empty prior ledger and concrete labels and dates. -/
theorem claim_C8_witness :
    isSetComplete
      (save_selection_to_csv (save_selection_to_csv (save_selection_to_csv
        (save_selection_to_csv [] (("x.com/o").data) (("x.com/g0").data)
          plausibleLabel ['1']) (("x.com/o").data) (("x.com/g1").data)
          plausibleLabel ['1']) (("x.com/o").data) (("x.com/g2").data)
          plausibleLabel ['1']) (("x.com/o").data) (("x.com/g3").data)
          plausibleLabel ['1'])
      (extract_key (("x.com/o").data))
      [extract_key (("x.com/g0").data), extract_key (("x.com/g1").data),
       extract_key (("x.com/g2").data), extract_key (("x.com/g3").data),
       extract_key (("x.com/g4").data)] = false
    ∧ isSetComplete
      (save_selection_to_csv (save_selection_to_csv (save_selection_to_csv
        (save_selection_to_csv (save_selection_to_csv []
          (("x.com/o").data) (("x.com/g0").data) plausibleLabel ['1'])
          (("x.com/o").data) (("x.com/g1").data) plausibleLabel ['1'])
          (("x.com/o").data) (("x.com/g2").data) plausibleLabel ['1'])
          (("x.com/o").data) (("x.com/g3").data) plausibleLabel ['1'])
          (("x.com/o").data) (("x.com/g4").data) plausibleLabel ['1'])
      (extract_key (("x.com/o").data))
      [extract_key (("x.com/g0").data), extract_key (("x.com/g1").data),
       extract_key (("x.com/g2").data), extract_key (("x.com/g3").data),
       extract_key (("x.com/g4").data)] = true :=
  claim_C8 [] (("x.com/o").data) (("x.com/g0").data) (("x.com/g1").data)
    (("x.com/g2").data) (("x.com/g3").data) (("x.com/g4").data)
    plausibleLabel plausibleLabel plausibleLabel plausibleLabel plausibleLabel
    ['1'] ['1'] ['1'] ['1'] ['1']
    (by decide) (by decide) (by decide) (by decide) (by decide) (by decide)
    (by decide) (by decide) (by decide) (by decide) (by decide)

/-! # CSV round trip (claim C7) -/

lemma splitQ_cons (delim c : Char) (rest : List Char) (inq : Bool) (acc : List Char) :
    splitQ delim (c :: rest) inq acc
      = if c = '"' then splitQ delim rest (!inq) (c :: acc)
        else if c = delim ∧ inq = false then acc.reverse :: splitQ delim rest false []
        else splitQ delim rest inq (c :: acc) := rfl

lemma splitQ_push (delim : Char) (s : List Char)
    (hch : ∀ c ∈ s, ¬ c = '"' ∧ ¬ c = delim) :
    ∀ inq acc rest, splitQ delim (s ++ rest) inq acc
      = splitQ delim rest inq (s.reverse ++ acc) := by
  induction s with
  | nil => intro inq acc rest; simp
  | cons c t ih =>
    intro inq acc rest
    have hc := hch c (List.mem_cons_self c t)
    rw [List.cons_append, splitQ_cons, if_neg hc.1,
      if_neg (fun hand => hc.2 hand.1)]
    rw [ih (fun x hx => hch x (List.mem_cons_of_mem c hx)) inq (c :: acc) rest]
    congr 1
    simp

lemma splitQ_esc (delim : Char) (f : List Char) :
    ∀ acc rest, splitQ delim (escapeQuotes f ++ rest) true acc
      = splitQ delim rest true ((escapeQuotes f).reverse ++ acc) := by
  induction f with
  | nil => intro acc rest; simp [escapeQuotes]
  | cons c t ih =>
    intro acc rest
    by_cases hc : c = '"'
    · subst hc
      have hesc : escapeQuotes ('"' :: t) = '"' :: '"' :: escapeQuotes t := by
        simp [escapeQuotes]
      rw [hesc, List.cons_append, List.cons_append]
      rw [splitQ_cons, if_pos rfl]
      show splitQ delim ('"' :: (escapeQuotes t ++ rest)) false ('"' :: acc) = _
      rw [splitQ_cons, if_pos rfl]
      show splitQ delim (escapeQuotes t ++ rest) true ('"' :: '"' :: acc) = _
      rw [ih ('"' :: '"' :: acc) rest]
      congr 1
      simp
    · have hesc : escapeQuotes (c :: t) = c :: escapeQuotes t := by
        simp [escapeQuotes, hc]
      rw [hesc, List.cons_append, splitQ_cons, if_neg hc,
        if_neg (by simp : ¬ (c = delim ∧ true = false))]
      rw [ih (c :: acc) rest]
      congr 1
      simp

lemma needsQuoting_false {f : List Char} (h : needsQuoting f = false) :
    ∀ c ∈ f, ¬ c = ',' ∧ ¬ c = '"' ∧ ¬ c = '\n' := by
  intro c hc
  unfold needsQuoting at h
  rw [List.any_eq_false] at h
  have := h c hc
  simpa [and_assoc] using this

lemma splitQ_encField (delim : Char) (f : List Char)
    (hd : delim = ',' ∨ delim = '\n') :
    ∀ acc rest, splitQ delim (encField f ++ rest) false acc
      = splitQ delim rest false ((encField f).reverse ++ acc) := by
  by_cases hq : needsQuoting f = true
  · intro acc rest
    simp only [encField, if_pos hq]
    rw [List.cons_append, splitQ_cons, if_pos rfl]
    show splitQ delim ((escapeQuotes f ++ ['"']) ++ rest) true ('"' :: acc) = _
    rw [List.append_assoc, splitQ_esc delim f ('"' :: acc) (['"'] ++ rest)]
    rw [List.singleton_append, splitQ_cons, if_pos rfl]
    show splitQ delim rest false
      ('"' :: ((escapeQuotes f).reverse ++ '"' :: acc)) = _
    congr 1
    simp
  · have hq' : needsQuoting f = false := by
      cases h : needsQuoting f
      · rfl
      · exact absurd h hq
    intro acc rest
    have henc : encField f = f := by simp [encField, hq']
    rw [henc]
    apply splitQ_push
    intro c hc
    have h3 := needsQuoting_false hq' c hc
    rcases hd with rfl | rfl
    · exact ⟨h3.2.1, h3.1⟩
    · exact ⟨h3.2.1, h3.2.2⟩

lemma joinComma_cons2 (f g : List Char) (t : List (List Char)) :
    joinComma (f :: g :: t) = f ++ ',' :: joinComma (g :: t) := rfl

lemma encLine_cons2 (f g : List Char) (t : List (List Char)) :
    encLine (f :: g :: t) = encField f ++ ',' :: encLine (g :: t) := by
  simp [encLine, joinComma_cons2]

lemma splitNL_encLine (fs : List (List Char)) :
    ∀ acc rest, splitQ '\n' (encLine fs ++ rest) false acc
      = splitQ '\n' rest false ((encLine fs).reverse ++ acc) := by
  induction fs with
  | nil => intro acc rest; simp [encLine, joinComma]
  | cons f t ih =>
    cases t with
    | nil =>
      intro acc rest
      exact splitQ_encField '\n' f (Or.inr rfl) acc rest
    | cons g t' =>
      intro acc rest
      rw [encLine_cons2, List.append_assoc]
      rw [splitQ_encField '\n' f (Or.inr rfl)]
      rw [List.cons_append, splitQ_cons, if_neg (by decide),
        if_neg (by decide)]
      rw [ih (',' :: ((encField f).reverse ++ acc)) rest]
      congr 1
      simp

lemma splitNL_rows : ∀ rows : List Row,
    splitQ '\n' (serializeRows rows) false []
      = rows.map (fun r => encLine (rowFields r)) ++ [[]] := by
  intro rows
  induction rows with
  | nil => rfl
  | cons r rs ih =>
    show splitQ '\n' (encLine (rowFields r) ++ '\n' :: serializeRows rs)
      false [] = _
    rw [splitNL_encLine (rowFields r) [] ('\n' :: serializeRows rs)]
    rw [splitQ_cons, if_neg (by decide), if_pos ⟨rfl, rfl⟩]
    rw [ih]
    simp

lemma splitNL_serialize (cols : List (List Char)) (rows : List Row) :
    splitQ '\n' (serialize_ledger ⟨cols, rows⟩) false []
      = encLine cols :: (rows.map (fun r => encLine (rowFields r)) ++ [[]]) := by
  show splitQ '\n' (encLine cols ++ '\n' :: serializeRows rows) false [] = _
  rw [splitNL_encLine cols [] ('\n' :: serializeRows rows)]
  rw [splitQ_cons, if_neg (by decide), if_pos ⟨rfl, rfl⟩, splitNL_rows]
  simp

lemma splitC_encLine : ∀ fs : List (List Char), ¬ fs = [] →
    splitQ ',' (encLine fs) false [] = fs.map encField := by
  intro fs
  induction fs with
  | nil => intro h; exact absurd rfl h
  | cons f t ih =>
    intro _
    cases t with
    | nil =>
      have h1 := splitQ_encField ',' f (Or.inl rfl) [] []
      rw [List.append_nil] at h1
      show splitQ ',' (encField f) false [] = [encField f]
      rw [h1]
      simp [splitQ]
    | cons g t' =>
      rw [encLine_cons2]
      rw [splitQ_encField ',' f (Or.inl rfl) [] (',' :: encLine (g :: t'))]
      rw [splitQ_cons, if_neg (by decide), if_pos ⟨rfl, rfl⟩]
      rw [ih (List.cons_ne_nil g t')]
      simp

lemma unescapeQ_cons (c : Char) (rest : List Char) :
    unescapeQ (c :: rest)
      = if c = '"' then
          (match rest with
           | [] => some []
           | c2 :: rest2 =>
             if c2 = '"' then (unescapeQ rest2).map (fun l => '"' :: l)
             else none)
        else (unescapeQ rest).map (fun l => c :: l) := by
  cases rest <;> rfl

lemma unescapeQ_esc : ∀ f : List Char,
    unescapeQ (escapeQuotes f ++ ['"']) = some f := by
  intro f
  induction f with
  | nil => rfl
  | cons c t ih =>
    by_cases hc : c = '"'
    · subst hc
      have hesc : escapeQuotes ('"' :: t) = '"' :: '"' :: escapeQuotes t := by
        simp [escapeQuotes]
      rw [hesc, List.cons_append, List.cons_append]
      have hu : unescapeQ ('"' :: '"' :: (escapeQuotes t ++ ['"']))
          = (unescapeQ (escapeQuotes t ++ ['"'])).map (fun l => '"' :: l) := by
        simp [unescapeQ]
      rw [hu, ih]
      rfl
    · have hesc : escapeQuotes (c :: t) = c :: escapeQuotes t := by
        simp [escapeQuotes, hc]
      rw [hesc, List.cons_append]
      have hu : unescapeQ (c :: (escapeQuotes t ++ ['"']))
          = (unescapeQ (escapeQuotes t ++ ['"'])).map (fun l => c :: l) := by
        rw [unescapeQ_cons, if_neg hc]
      rw [hu, ih]
      rfl

lemma decodeField_encField (f : List Char) : decodeField (encField f) = some f := by
  by_cases hq : needsQuoting f = true
  · simp only [encField, if_pos hq]
    have hdec : decodeField ('"' :: (escapeQuotes f ++ ['"']))
        = unescapeQ (escapeQuotes f ++ ['"']) := by
      simp [decodeField]
    rw [hdec, unescapeQ_esc]
  · have hq' : needsQuoting f = false := by
      cases h : needsQuoting f
      · rfl
      · exact absurd h hq
    have henc : encField f = f := by simp [encField, hq']
    rw [henc]
    cases f with
    | nil => rfl
    | cons c t =>
      have hc : ¬ c = '"' :=
        (needsQuoting_false hq' c (List.mem_cons_self c t)).2.1
      simp [decodeField, hc]

lemma decodeFields_map : ∀ fs : List (List Char),
    decodeFields (fs.map encField) = some fs := by
  intro fs
  induction fs with
  | nil => rfl
  | cons f t ih =>
    show decodeFields (encField f :: t.map encField) = some (f :: t)
    have heq : decodeFields (encField f :: t.map encField)
        = match decodeField (encField f), decodeFields (t.map encField) with
          | some d, some ds => some (d :: ds)
          | _, _ => none := rfl
    rw [heq, decodeField_encField, ih]

lemma decodeLine_encLine (fs : List (List Char)) (h : ¬ fs = []) :
    decodeLine (encLine fs) = some fs := by
  unfold decodeLine
  rw [splitC_encLine fs h, decodeFields_map]

lemma decodeLines_rows : ∀ rows : List Row,
    decodeLines (rows.map (fun r => encLine (rowFields r)))
      = some (rows.map rowFields) := by
  intro rows
  induction rows with
  | nil => rfl
  | cons r rs ih =>
    show decodeLines
      (encLine (rowFields r) :: rs.map (fun x => encLine (rowFields x))) = _
    have heq : decodeLines
        (encLine (rowFields r) :: rs.map (fun x => encLine (rowFields x)))
        = match decodeLine (encLine (rowFields r)),
            decodeLines (rs.map (fun x => encLine (rowFields x))) with
          | some a, some b => some (a :: b)
          | _, _ => none := rfl
    rw [heq, decodeLine_encLine (rowFields r) (by simp [rowFields]), ih]
    rfl

lemma toRows_map : ∀ rows : List Row, toRows (rows.map rowFields) = some rows := by
  intro rows
  induction rows with
  | nil => rfl
  | cons r rs ih =>
    show toRows ([r.orig, r.gen, r.plaus, r.date] :: rs.map rowFields)
      = some (r :: rs)
    have heq : toRows ([r.orig, r.gen, r.plaus, r.date] :: rs.map rowFields)
        = (toRows (rs.map rowFields)).map
            (fun l => (⟨r.orig, r.gen, r.plaus, r.date⟩ : Row) :: l) := rfl
    rw [heq, ih]
    rfl

lemma joinComma_two_ne (a b : List Char) (l : List (List Char)) :
    ¬ joinComma (a :: b :: l) = [] := by
  rw [joinComma_cons2]
  cases a
  · simp
  · simp

lemma encLine_rowFields_ne (r : Row) : ¬ encLine (rowFields r) = [] := by
  have heq : (rowFields r).map encField
      = encField r.orig :: encField r.gen
        :: [encField r.plaus, encField r.date] := rfl
  rw [encLine, heq]
  exact joinComma_two_ne _ _ _

lemma filter_isEmpty_lines (hd : List Char) (ls : List (List Char))
    (hhd : ¬ hd = []) (hls : ∀ l ∈ ls, ¬ l = []) :
    ((hd :: (ls ++ [[]])).filter (fun l => !l.isEmpty)) = hd :: ls := by
  rw [List.filter_cons_of_pos (by
    cases hd with
    | nil => exact absurd rfl hhd
    | cons a t => rfl)]
  congr 1
  rw [List.filter_append]
  have h1 : ls.filter (fun l => !l.isEmpty) = ls := by
    rw [List.filter_eq_self]
    intro a ha
    cases a with
    | nil => exact absurd rfl (hls [] ha)
    | cons x t => rfl
  rw [h1]
  simp

lemma parse_csv_serialize (rows : List Row) :
    parse_csv (serialize_ledger ⟨expectedColumns, rows⟩)
      = some (expectedColumns, rows.map rowFields) := by
  have hfilter : ((splitQ '\n' (serialize_ledger ⟨expectedColumns, rows⟩)
      false []).filter (fun l => !l.isEmpty))
      = encLine expectedColumns :: rows.map (fun r => encLine (rowFields r)) := by
    rw [splitNL_serialize]
    exact filter_isEmpty_lines _ _ (by decide) (by
      intro l hl
      rcases List.mem_map.mp hl with ⟨r, _, rfl⟩
      exact encLine_rowFields_ne r)
  unfold parse_csv
  rw [hfilter]
  show (match decodeLine (encLine expectedColumns),
      decodeLines (rows.map (fun r => encLine (rowFields r))) with
    | some hdr, some recs => some (hdr, recs)
    | _, _ => none) = some (expectedColumns, rows.map rowFields)
  rw [decodeLine_encLine expectedColumns (by decide), decodeLines_rows]

/-- Claim C7: serializing a ledger in the tabular wire format (the exact
four-column header, then one comma-separated record per judgment) and
parsing the result back yields the same rows with identical field
values. -/
theorem claim_C7 : ∀ rows : List Row,
    read_ledger_csv (serialize_ledger ⟨expectedColumns, rows⟩)
      = some ⟨expectedColumns, rows⟩ := by
  intro rows
  unfold read_ledger_csv
  rw [parse_csv_serialize]
  show (if expectedColumns.length = 4 then
      match toRows (rows.map rowFields) with
      | some rs => some (⟨expectedColumns, rs⟩ : DataFrame)
      | none => none
    else none) = some ⟨expectedColumns, rows⟩
  rw [if_pos (by decide), toRows_map]

/-! # The upstream image-set filter (claim C10) -/

lemma nodup_inter_length (A B : List (List Char))
    (hA : A.Nodup) (hB : B.Nodup) :
    ((A.filter (fun k => decide (k ∈ B))).length < B.length
      ↔ ∃ k ∈ B, ¬ k ∈ A) := by
  constructor
  · intro h
    by_contra hno
    push_neg at hno
    have hsub : B ⊆ A.filter (fun k => decide (k ∈ B)) := by
      intro k hk
      exact List.mem_filter.mpr ⟨hno k hk, decide_eq_true hk⟩
    have hle := (hB.subperm hsub).length_le
    omega
  · rintro ⟨k, hkB, hkA⟩
    have hsub : A.filter (fun x => decide (x ∈ B)) ⊆ B.erase k := by
      intro x hx
      rcases List.mem_filter.mp hx with ⟨hxA, hxB⟩
      have hxB2 : x ∈ B := of_decide_eq_true hxB
      have hxk : x ≠ k := fun he => hkA (he ▸ hxA)
      exact (List.mem_erase_of_ne hxk).mpr hxB2
    have hnd : (A.filter (fun x => decide (x ∈ B))).Nodup := hA.filter _
    have hle := (hnd.subperm hsub).length_le
    have hlen : (B.erase k).length = B.length - 1 :=
      List.length_erase_of_mem hkB
    have hpos : 0 < B.length := List.length_pos_of_mem hkB
    omega

/-- Claim C10 counterexample: for an image set whose five generated URLs
all extract to the same key, the filter retains the set even though every
one of its extracted generated keys already has a matching ledger row —
the claimed `retain iff some key is absent` fails, because the code
compares the size of a set intersection against the length of the
five-element list. -/
theorem claim_C10_counterexample :
    retains_image_set exampleDfXA exampleSetDupKeys = true
    ∧ ∀ k ∈ exampleSetDupKeys.generated.map extract_key,
        k ∈ ((exampleDfXA.filter
          (fun r => decide (r.orig = extract_key exampleSetDupKeys.original))).map
          Row.gen) := by
  constructor
  · decide
  · decide

/-- Claim C10 (amended): the filter retains an image set exactly when the
number of distinct annotated generated keys occurring among the set's
extracted keys is smaller than the length of the generated list; when the
five extracted keys are pairwise distinct this is equivalent to at least
one of them being absent from the annotated `Generated_Image` values for
the set's original key.  `load_image_sets_from_json` is the filter by
this retention test, and the criterion can disagree with the count-based
`isSetComplete`: a ledger can hold five rows for the original key (so the
Next-button check passes) whose generated keys lie outside the set (so
the filter still retains it). -/
theorem claim_C10 :
    (∀ (df : List Row) (s : ImageSet), (s.generated.map extract_key).Nodup →
      (retains_image_set df s = true ↔
        ∃ k ∈ s.generated.map extract_key,
          ¬ k ∈ ((df.filter
            (fun r => decide (r.orig = extract_key s.original))).map Row.gen)))
    ∧ (∀ (df : List Row) (sets : List ImageSet),
        load_image_sets_from_json df sets
          = sets.filter (retains_image_set df))
    ∧ ∃ (df : List Row) (s : ImageSet),
        isSetComplete df (extract_key s.original) (s.generated.map extract_key)
          = true
        ∧ retains_image_set df s = true := by
  refine ⟨?_, ?_, ?_⟩
  · intro df s hnd
    have hdef : retains_image_set df s
        = decide
          (((((df.filter (fun r => decide (r.orig = extract_key s.original))).map
              Row.gen).dedup).filter
            (fun k => decide (k ∈ s.generated.map extract_key))).length
            < (s.generated.map extract_key).length) := rfl
    rw [hdef, decide_eq_true_iff]
    have hmain := nodup_inter_length
      (((df.filter (fun r => decide (r.orig = extract_key s.original))).map
        Row.gen).dedup)
      (s.generated.map extract_key) (List.nodup_dedup _) hnd
    constructor
    · intro h
      rcases hmain.mp h with ⟨k, hk1, hk2⟩
      exact ⟨k, hk1, fun hc => hk2 (List.mem_dedup.mpr hc)⟩
    · rintro ⟨k, hk1, hk2⟩
      exact hmain.mpr ⟨k, hk1, fun hc => hk2 (List.mem_dedup.mp hc)⟩
  · intro df sets
    show (if (sets.filter (retains_image_set df)).isEmpty = true
        then ([] : List ImageSet)
        else sets.filter (retains_image_set df))
      = sets.filter (retains_image_set df)
    by_cases h : (sets.filter (retains_image_set df)).isEmpty = true
    · rw [if_pos h]
      exact (List.isEmpty_iff.mp h).symm
    · rw [if_neg h]
  · refine ⟨[⟨['x'], ['q'], [], []⟩, ⟨['x'], ['r'], [], []⟩,
      ⟨['x'], ['s'], [], []⟩, ⟨['x'], ['t'], [], []⟩, ⟨['x'], ['u'], [], []⟩],
      exampleSetDistinct, ?_, ?_⟩
    · decide
    · decide

/-- Witness for the amended claim C10: on an empty ledger, a set with
five distinct extracted keys is retained, via the absent-key direction of
the equivalence. -/
theorem claim_C10_witness :
    retains_image_set [] exampleSetDistinct = true :=
  (claim_C10.1 [] exampleSetDistinct (by decide)).mpr
    ⟨['a'], by decide, by decide⟩
